import Mathlib

/-!
Shallow embedding of the portless reverse proxy core
(`packages/deamon/src/proxy.ts`): the domain-substitution table built from
the configuration, the JavaScript regex-alternation replacement used on
response bodies and headers, the per-response writeHead/write/end wrappers,
the ACME challenge short-circuit, the WebSocket upgrade header rewriting and
the proxy error handler.  Strings are modelled as Lean strings; JavaScript
regex replacement with a global alternation of escaped literal strings is
modelled as a leftmost scan trying the alternatives in order.
-/

namespace Portless

/-- JavaScript `s.includes(sub)`: substring test. -/
def strIncludes (s sub : String) : Bool :=
  s.data.tails.any (fun t => sub.data.isPrefixOf t)

/-- JavaScript `s.startsWith(p)`. -/
def jsStartsWith (s p : String) : Bool :=
  p.data.isPrefixOf s.data

/-- JavaScript `s.substr(n)` / drop of the first `n` characters. -/
def strDrop (s : String) (n : Nat) : String :=
  ⟨s.data.drop n⟩

/-- One alternative of a compiled alternation: (literal pattern, replacement).
The replacement is the value the JS replace callback returns for that
matched alternative. -/
abbrev Alt := List Char × List Char

/-- Find the first alternative whose pattern is a prefix of `s`; return its
replacement and the length of the match.  This is what the JS regex engine
does at one scan position for `(a1|a2|...)`: alternatives are tried in
order, literal, not longest-match. -/
def findRepl (alts : List Alt) (s : List Char) : Option (List Char × Nat) :=
  alts.findSome? (fun a => if a.1.isPrefixOf s then some (a.2, a.1.length) else none)

/-- Fuel-driven worker for `jsReplace`; the fuel is an upper bound on the
string length, so the fuel-exhausted branch is never reached in use. -/
def jsReplaceAux (alts : List Alt) : Nat → List Char → List Char
  | _, [] =>
    (match findRepl alts [] with
     | some (r, _) => r
     | none => [])
  | 0, s => s
  | fuel + 1, c :: cs =>
    match findRepl alts (c :: cs) with
    | some (r, 0) => r ++ c :: jsReplaceAux alts fuel cs
    | some (r, n + 1) => r ++ jsReplaceAux alts fuel (cs.drop n)
    | none => c :: jsReplaceAux alts fuel cs

/-- JavaScript `text.replace(reg, func)` for a global alternation regex of
literal alternatives.  Scans left to right; at each position the first
matching alternative is replaced and the scan resumes after the match.  An
empty-pattern match (the `RegExp("()")` built from zero alternatives)
inserts its replacement and the scan advances one character, with one final
insertion at the end of the string, exactly as the JS engine behaves. -/
def jsReplace (alts : List Alt) (s : List Char) : List Char :=
  jsReplaceAux alts s.length s

def jsReplaceS (alts : List Alt) (s : String) : String :=
  ⟨jsReplace alts s.data⟩

/-- A header object / plain JS object used as a string map.  Keys are the
already-lowercased header names (Node lowercases incoming and `getHeader`
names). -/
abbrev HeaderMap := List (String × String)

/-- Lookup: first binding wins; `setHeader` keeps at most one binding per
key, so this is JS object indexing. -/
def getHeader : HeaderMap → String → Option String
  | [], _ => none
  | kv :: rest, k => if kv.1 = k then some kv.2 else getHeader rest k

/-- JS `delete obj[k]` / `res.removeHeader`: drop every binding of `k`. -/
def removeHeader : HeaderMap → String → HeaderMap
  | [], _ => []
  | kv :: rest, k =>
    if kv.1 = k then removeHeader rest k else kv :: removeHeader rest k

/-- JS object assignment / `res.setHeader`: replace any existing binding. -/
def setHeader (m : HeaderMap) (k v : String) : HeaderMap :=
  removeHeader m k ++ [(k, v)]

/-- Node `writeHead(status, headers)`: the headers argument is merged over
the headers already set on the response object. -/
def mergeHeaders (base : HeaderMap) (arg : Option HeaderMap) : HeaderMap :=
  match arg with
  | some h => h.foldl (fun acc kv => setHeader acc kv.1 kv.2) base
  | none => base

/-- A domain configuration entry (`config.domains` element). -/
structure DomainConfig where
  targetUrl : String
  publicUrl : Option String
deriving DecidableEq

/-- Modelled from the spec: `getDomain` lives in `@portless/util`, which is
not among the given sources.  Per the spec scenario, the hostname (with
port) is extracted from a URL: `http://localhost:3000` yields
`localhost:3000` and `https://app.example` yields `app.example`, so the
scheme is stripped and the host part taken up to the first slash. -/
def getDomain (url : String) : String :=
  let rest :=
    if jsStartsWith url "https://" then strDrop url 8
    else if jsStartsWith url "http://" then strDrop url 7
    else url
  ⟨rest.data.takeWhile (fun c => ! (c == '/'))⟩

/-- The bidirectional substitution table built in `proxyTarget`
(proxy.ts lines 74-93): forward map target→public, reverse map
public→target, and the alternation pattern member lists in push order.
`escapeReg` (also `@portless/util`) only makes the regex treat the hostname
literally, which the literal matcher `jsReplace` already does, so it is the
identity here. -/
structure DomainTable where
  replaceMap : HeaderMap
  escapedUrls : List String
  reverseReplaceMap : HeaderMap
  reverseEscapedUrls : List String
deriving DecidableEq

def emptyTable : DomainTable := ⟨[], [], [], []⟩

/-- One iteration of the `for (const domainConfig of config.domains)` loop:
only configurations with a public URL register anything. -/
def addDomain (t : DomainTable) (dc : DomainConfig) : DomainTable :=
  match dc.publicUrl with
  | some pu =>
    let td := getDomain dc.targetUrl
    let pd := getDomain pu
    { replaceMap := setHeader t.replaceMap td pd
      escapedUrls := t.escapedUrls ++ [td]
      reverseReplaceMap := setHeader t.reverseReplaceMap pd td
      reverseEscapedUrls := t.reverseEscapedUrls ++ [pd] }
  | none => t

def buildDomainTable (domains : List DomainConfig) : DomainTable :=
  domains.foldl addDomain emptyTable

def undefinedStr : String := "undefined"

/-- Compile an alternation from the escaped url list and the replacement
map.  With zero alternatives the source builds `new RegExp("()", "g")`,
whose single group matches the empty string at every position, and the
replace callback returns `replaceMap[matched]`, i.e. `undefined`, which JS
stringifies to `"undefined"`. -/
def altsOf (urls : List String) (m : HeaderMap) : List Alt :=
  if urls.isEmpty then [([], undefinedStr.data)]
  else urls.map (fun u => (u.data, ((getHeader m u).getD undefinedStr).data))

def forwardAlts (t : DomainTable) : List Alt :=
  altsOf t.escapedUrls t.replaceMap

def reverseAlts (t : DomainTable) : List Alt :=
  altsOf t.reverseEscapedUrls t.reverseReplaceMap

/-- `text.replace(replaceReg, replaceFunc)`. -/
def forwardReplace (t : DomainTable) (s : String) : String :=
  jsReplaceS (forwardAlts t) s

/-- `text.replace(reverseReplaceReg, reverseReplaceFunc)`. -/
def reverseReplace (t : DomainTable) (s : String) : String :=
  jsReplaceS (reverseAlts t) s

/-- Straddle freedom of a text for a single target/public hostname pair:
at every position of the text where the target hostname does not match,
the public hostname must not begin in the forward-rewritten remainder.
In particular a text containing an occurrence of the public hostname
outside target matches is not safe.  Decidable, so concrete texts are
checked by evaluation. -/
def rtSafe (h p t : List Char) : Bool :=
  t.tails.all (fun s =>
    match s with
    | [] => true
    | c :: cs => h.isPrefixOf (c :: cs) || ! (p.isPrefixOf (c :: jsReplace [(h, p)] cs)))

/-! ### Per-response state machine

`proxyTarget` replaces `res.writeHead`, `res.write` and `res.end` when
`replaceReg` exists (proxy.ts lines 106-162).  A response is modelled as a
fold of events the upstream transport performs on the response object:
setting a header, calling `writeHead`, writing a body chunk, ending. -/

inductive ResEvent where
  | setHdr (k v : String)
  | writeHead (status : Nat) (headers : Option HeaderMap)
  | write (chunk : String)
  | endEv (chunk : Option String)
deriving DecidableEq

structure ResState where
  resHeaders : HeaderMap
  shouldRewrite : Bool
  sentHeaders : Option (Nat × HeaderMap)
  body : List String
  ended : Bool
deriving DecidableEq

/-- `let shouldRewrite = false` and a fresh response object. -/
def initRes : ResState := ⟨[], false, none, [], false⟩

/-- The content types enabling body rewriting (proxy.ts lines 116-120). -/
def rewriteTypes : List String := ["text/html", "text/css", "application/javascript"]

/-- JS `a || b` on strings-or-undefined: an empty string is falsy. -/
def jsOr (a b : Option String) : Option String :=
  match a with
  | some s => if s.isEmpty then b else some s
  | none => b

/-- `contentType && [...].some(type => contentType.includes(type))`
coerced to a boolean. -/
def computeShouldRewrite (ct : Option String) : Bool :=
  match ct with
  | some c => rewriteTypes.any (fun ty => strIncludes c ty)
  | none => false

def corsKey : String := "access-control-allow-origin"

/-- CORS rewriting of the headers already set on the response
(proxy.ts lines 131-134); a non-empty string value is required by the
`corsHeader && typeof corsHeader === "string"` guard. -/
def applyCorsRes (t : DomainTable) (m : HeaderMap) : HeaderMap :=
  match getHeader m corsKey with
  | some v => if v.isEmpty then m else setHeader m corsKey (forwardReplace t v)
  | none => m

/-- CORS rewriting of the `writeHead` headers argument
(proxy.ts lines 135-137). -/
def applyCorsArg (t : DomainTable) (h : HeaderMap) : HeaderMap :=
  match getHeader h corsKey with
  | some v => if v.isEmpty then h else setHeader h corsKey (forwardReplace t v)
  | none => h

/-- The content type consulted at `writeHead` time: the header already on
the response, falling back to the `writeHead` headers argument
(proxy.ts line 115). -/
def ctOf (st : ResState) (harg : Option HeaderMap) : Option String :=
  jsOr (getHeader st.resHeaders "content-type")
       (harg.bind (fun h => getHeader h "content-type"))

/-- The rewrite decision fixed at `writeHead` time. -/
def swOf (st : ResState) (harg : Option HeaderMap) : Bool :=
  computeShouldRewrite (ctOf st harg)

/-- Response headers after the `writeHead` wrapper ran: `content-length`
stripped when rewriting, CORS value substituted unconditionally. -/
def rhAfter (t : DomainTable) (st : ResState) (harg : Option HeaderMap) : HeaderMap :=
  applyCorsRes t
    (if swOf st harg then removeHeader st.resHeaders "content-length" else st.resHeaders)

/-- The `writeHead` headers argument after the wrapper mutated it. -/
def haAfter (t : DomainTable) (st : ResState) (harg : Option HeaderMap) : Option HeaderMap :=
  (if swOf st harg then harg.map (fun h => removeHeader h "content-length") else harg).map
    (applyCorsArg t)

/-- One event against the wrapped response (the `if (replaceReg)` branch,
proxy.ts lines 106-162).  `writeHead` fixes the rewrite decision from the
content type, strips `content-length` when rewriting, rewrites the CORS
header unconditionally, then flushes; `write` substitutes the chunk when
the decision is enabled; the patched `end` takes no argument, so any chunk
handed to it is discarded. -/
def stepWrapped (t : DomainTable) (st : ResState) (ev : ResEvent) : ResState :=
  match ev with
  | .setHdr k v => { st with resHeaders := setHeader st.resHeaders k v }
  | .writeHead status harg =>
    { st with
        shouldRewrite := swOf st harg
        resHeaders := rhAfter t st harg
        sentHeaders := some (status, mergeHeaders (rhAfter t st harg) (haAfter t st harg)) }
  | .write c =>
    { st with body := st.body ++ [if st.shouldRewrite then forwardReplace t c else c] }
  | .endEv _ => { st with ended := true }

def runWrapped (t : DomainTable) (evs : List ResEvent) : ResState :=
  evs.foldl (stepWrapped t) initRes

/-- One event against the native, unwrapped response object — the case in
which `config.domains` is falsy, so the `if (replaceReg)` branch installed
nothing: `writeHead` just flushes, `write` appends the chunk, and the
native `end(data)` writes its chunk before ending. -/
def stepPlain (st : ResState) (ev : ResEvent) : ResState :=
  match ev with
  | .setHdr k v => { st with resHeaders := setHeader st.resHeaders k v }
  | .writeHead status harg =>
    { st with sentHeaders := some (status, mergeHeaders st.resHeaders harg) }
  | .write c => { st with body := st.body ++ [c] }
  | .endEv oc =>
    { st with
        body := st.body ++ (match oc with | some c => [c] | none => [])
        ended := true }

def runPlain (evs : List ResEvent) : ResState :=
  evs.foldl stepPlain initRes

/-- The chunks the upstream wrote via `res.write`. -/
def writesOf (evs : List ResEvent) : List String :=
  evs.filterMap (fun ev =>
    match ev with
    | .write c => some c
    | _ => none)

/-- Headers resulting from the `setHdr` events alone, folded over an
initial map. -/
def setsFold (m : HeaderMap) (evs : List ResEvent) : HeaderMap :=
  evs.foldl (fun acc ev =>
    match ev with
    | .setHdr k v => setHeader acc k v
    | _ => acc) m

/-- Headers resulting from the `setHdr` events alone. -/
def setsOnly (evs : List ResEvent) : HeaderMap :=
  setsFold [] evs

/-! ### Request handler entry (proxy.ts lines 95-104 and 164-165) -/

def acmeChallengePath : String := "/.well-known/acme-challenge/"

/-- What the connection handler does with a request: answer the ACME
challenge itself (with Node's implicit default status 200, since no
`writeHead` happens before `res.write`), or hand the request to
`proxy.web`, with the response wrappers installed when `replaceReg`
exists. -/
inductive HandleResult where
  | challenge (status : Nat) (body : String)
  | proxied (gated : Bool)
deriving DecidableEq

/-- `if (replaceReg)`: `replaceReg` is assigned exactly when
`config.domains` is truthy, and a JS `RegExp` object is always truthy, so
the wrappers are installed whenever a domains list is present, even one
with no public hosts. -/
def gateEngaged (domains : Option (List DomainConfig)) : Bool :=
  domains.isSome

/-- The `http.createServer` callback (proxy.ts lines 95-166): the ACME
short-circuit runs before anything else and only when a key id is
configured and the url starts with the challenge path. -/
def handleRequest (publicKeyId : Option String) (gated : Bool)
    (url : Option String) : HandleResult :=
  match publicKeyId with
  | some kid =>
    match url with
    | some u =>
      if jsStartsWith u acmeChallengePath then
        .challenge 200 ((strDrop u acmeChallengePath.length) ++ "." ++ kid)
      else .proxied gated
    | none => .proxied gated
  | none => .proxied gated

/-! ### WebSocket upgrade handler (proxy.ts lines 168-180) -/

inductive OriginHeader where
  | absent
  | scalar (v : String)
  | listVals (vs : List String)
deriving DecidableEq

structure UpgradeReq where
  host : Option String
  origin : OriginHeader
deriving DecidableEq

/-- Header rewriting before `proxy.ws`: host (when truthy) and origin
(array mapped elementwise, scalar when truthy) pass through the reverse
substitution. -/
def rewriteUpgrade (t : DomainTable) (r : UpgradeReq) : UpgradeReq :=
  { host :=
      match r.host with
      | some h => if h.isEmpty then some h else some (reverseReplace t h)
      | none => none
    origin :=
      match r.origin with
      | .listVals vs => .listVals (vs.map (reverseReplace t))
      | .scalar v => if v.isEmpty then .scalar v else .scalar (reverseReplace t v)
      | .absent => .absent }

/-! ### Proxy error handler (proxy.ts lines 51-65) -/

def enotfound : String := "getaddrinfo ENOTFOUND"

/-- `errorMessage` rewording: a DNS failure message is replaced by a line
naming the missing host (`substr` skips the prefix and the space). -/
def rewordError (msg : String) : String :=
  if jsStartsWith msg enotfound then
    "Can\x27t find host <b>" ++ strDrop msg (enotfound.length + 1) ++ "</b>"
  else msg

/-- Modelled from the spec: `renderTemplate` lives in `@portless/template`,
which is not among the given sources.  Per the spec, the template
collaborator is given the error message and the raw error stack and its
returned bytes are sent verbatim as the HTTP 500 body, so it is modelled as
a fixed page embedding both. -/
def renderTemplate (errorMessage errorStack : String) : String :=
  "<html><body><h1>" ++ errorMessage ++ "</h1><pre>" ++ errorStack ++ "</pre></body></html>"

/-- The events the `proxy.on("error", ...)` handler performs on the
response of the failing request (proxy.ts lines 52-63): `writeHead(500,
...)` — with the literal misspelled key ContentType, so no real
content-type header is set — followed by `res.end(page)` with the rendered
diagnostic page as argument.  Whether that final chunk is delivered
depends on whether the request callback replaced `res.end`: with a truthy
`config.domains` the patched zero-argument `end` is in place and discards
it. -/
def errorEvents (message stack : String) : List ResEvent :=
  [.writeHead 500 (some [("ContentType", "text/html; charset=utf-8")]),
   .endEv (some (renderTemplate (rewordError message) stack))]

/-! ### Concrete tables used by witnesses and counterexamples -/

def exDomains : List DomainConfig :=
  [⟨"http://localhost:3000", some "https://app.example"⟩]

def exTable : DomainTable := buildDomainTable exDomains

def corsDomains : List DomainConfig :=
  [⟨"http://target.local", some "http://public.example"⟩]

def corsTable : DomainTable := buildDomainTable corsDomains

/-- A domains list in which no configuration defines a public host. -/
def c1Domains : List DomainConfig :=
  [⟨"http://localhost:3000", none⟩]

/-- A response state carrying a binary content type and a CORS header with
a target hostname, as in the CORS independence example of the spec. -/
def c5St : ResState :=
  ⟨[("content-type", "application/octet-stream"),
    ("access-control-allow-origin", "http://target.local")], false, none, [], false⟩

/-! ### Lemma layer -/

theorem dropLenLe (m : Nat) (cs : List Char) : (cs.drop m).length ≤ cs.length := by
  simp [List.length_drop]

theorem jsReplaceAux_congr (alts : List Alt) :
    ∀ f₁ f₂ s, s.length ≤ f₁ → s.length ≤ f₂ →
      jsReplaceAux alts f₁ s = jsReplaceAux alts f₂ s := by
  intro f₁
  induction f₁ with
  | zero =>
    intro f₂ s hs₁ _
    have : s = [] := List.eq_nil_of_length_eq_zero (Nat.le_zero.mp hs₁)
    subst this
    cases f₂ <;> rfl
  | succ g ih =>
    intro f₂ s hs₁ hs₂
    cases s with
    | nil => cases f₂ <;> rfl
    | cons c cs =>
      cases f₂ with
      | zero => exact absurd hs₂ (by simp)
      | succ g₂ =>
        have hcs : cs.length ≤ g := by
          simp [List.length_cons] at hs₁; omega
        have hcs₂ : cs.length ≤ g₂ := by
          simp [List.length_cons] at hs₂; omega
        cases hfr : findRepl alts (c :: cs) with
        | none =>
          simp only [jsReplaceAux, hfr]
          rw [ih g₂ cs hcs hcs₂]
        | some rn =>
          rcases rn with ⟨r, n⟩
          cases n with
          | zero =>
            simp only [jsReplaceAux, hfr]
            rw [ih g₂ cs hcs hcs₂]
          | succ m =>
            simp only [jsReplaceAux, hfr]
            rw [ih g₂ (cs.drop m)
              (Nat.le_trans (dropLenLe m cs) hcs)
              (Nat.le_trans (dropLenLe m cs) hcs₂)]

theorem jsReplace_nil (alts : List Alt) :
    jsReplace alts [] =
      (match findRepl alts [] with
       | some (r, _) => r
       | none => []) := rfl

theorem jsReplace_cons (alts : List Alt) (c : Char) (cs : List Char) :
    jsReplace alts (c :: cs) =
      (match findRepl alts (c :: cs) with
       | some (r, 0) => r ++ c :: jsReplace alts cs
       | some (r, n + 1) => r ++ jsReplace alts (cs.drop n)
       | none => c :: jsReplace alts cs) := by
  show jsReplaceAux alts (cs.length + 1) (c :: cs) = _
  cases hfr : findRepl alts (c :: cs) with
  | none => simp only [jsReplaceAux, hfr]; rfl
  | some rn =>
    rcases rn with ⟨r, n⟩
    cases n with
    | zero => simp only [jsReplaceAux, hfr]; rfl
    | succ m =>
      simp only [jsReplaceAux, hfr]
      rw [jsReplaceAux_congr alts cs.length (cs.drop m).length (cs.drop m)
        (dropLenLe m cs) (Nat.le_refl _)]
      rfl

/-! #### Header map lemmas -/

theorem getHeader_removeHeader_same (m : HeaderMap) (k : String) :
    getHeader (removeHeader m k) k = none := by
  induction m with
  | nil => rfl
  | cons kv rest ih =>
    by_cases h : kv.1 = k
    · simpa [removeHeader, h] using ih
    · simpa [removeHeader, h, getHeader] using ih

theorem getHeader_removeHeader_ne (m : HeaderMap) (k k' : String) (h : k' ≠ k) :
    getHeader (removeHeader m k) k' = getHeader m k' := by
  induction m with
  | nil => rfl
  | cons kv rest ih =>
    by_cases hk : kv.1 = k
    · have hne : kv.1 ≠ k' := by rw [hk]; exact Ne.symm h
      simpa [removeHeader, hk, getHeader, hne, h, Ne.symm h] using ih
    · by_cases hk' : kv.1 = k'
      · simp [removeHeader, hk, getHeader, hk', h, Ne.symm h]
      · simpa [removeHeader, hk, getHeader, hk', h, Ne.symm h] using ih

theorem getHeader_append_of_none (m₁ m₂ : HeaderMap) (k : String)
    (h : getHeader m₁ k = none) :
    getHeader (m₁ ++ m₂) k = getHeader m₂ k := by
  induction m₁ with
  | nil => rfl
  | cons kv rest ih =>
    by_cases hk : kv.1 = k
    · simp [getHeader, hk] at h
    · simp [getHeader, hk] at h ⊢
      exact ih h

theorem getHeader_setHeader_same (m : HeaderMap) (k v : String) :
    getHeader (setHeader m k v) k = some v := by
  rw [setHeader,
    getHeader_append_of_none (removeHeader m k) [(k, v)] k
      (getHeader_removeHeader_same m k)]
  simp [getHeader]

theorem getHeader_setHeader_ne (m : HeaderMap) (k v k' : String) (h : k' ≠ k) :
    getHeader (setHeader m k v) k' = getHeader m k' := by
  rw [setHeader]
  induction m with
  | nil => simp [getHeader, removeHeader, Ne.symm h]
  | cons kv rest ih =>
    by_cases hk : kv.1 = k
    · have hne : kv.1 ≠ k' := by rw [hk]; exact Ne.symm h
      simpa [removeHeader, hk, getHeader, hne, h, Ne.symm h] using ih
    · by_cases hk' : kv.1 = k'
      · simp [removeHeader, hk, getHeader, hk', h, Ne.symm h]
      · simpa [removeHeader, hk, getHeader, hk', h, Ne.symm h] using ih

theorem getHeader_none_of_keys_ne (m : HeaderMap) (k : String)
    (h : ∀ kv ∈ m, kv.1 ≠ k) : getHeader m k = none := by
  induction m with
  | nil => rfl
  | cons kv rest ih =>
    have h0 : kv.1 ≠ k := h kv (List.mem_cons_self kv rest)
    simpa [getHeader, h0] using ih (fun kv hkv => h kv (List.mem_cons_of_mem _ hkv))

theorem mem_removeHeader (m : HeaderMap) (k : String) :
    ∀ kv ∈ removeHeader m k, kv ∈ m ∧ kv.1 ≠ k := by
  induction m with
  | nil => intro kv hkv; simp [removeHeader] at hkv
  | cons a rest ih =>
    intro kv hkv
    by_cases h : a.1 = k
    · simp only [removeHeader, if_pos h] at hkv
      obtain ⟨h1, h2⟩ := ih kv hkv
      exact ⟨List.mem_cons_of_mem _ h1, h2⟩
    · simp only [removeHeader, if_neg h] at hkv
      rcases List.mem_cons.mp hkv with rfl | hm
      · exact ⟨List.mem_cons_self _ _, h⟩
      · obtain ⟨h1, h2⟩ := ih kv hm
        exact ⟨List.mem_cons_of_mem _ h1, h2⟩

theorem mem_setHeader (m : HeaderMap) (k v : String) :
    ∀ kv ∈ setHeader m k v, kv ∈ m ∨ kv = (k, v) := by
  intro kv hkv
  rcases List.mem_append.mp hkv with h | h
  · exact Or.inl (mem_removeHeader m k kv h).1
  · exact Or.inr (List.mem_singleton.mp h)

theorem getHeader_mergeHeaders_keyFree (h : HeaderMap) :
    ∀ (base : HeaderMap) (k : String), (∀ kv ∈ h, kv.1 ≠ k) →
      getHeader (mergeHeaders base (some h)) k = getHeader base k := by
  induction h with
  | nil => intro base k _; rfl
  | cons kv rest ih =>
    intro base k hk
    have heq : mergeHeaders base (some (kv :: rest))
        = mergeHeaders (setHeader base kv.1 kv.2) (some rest) := rfl
    rw [heq, ih (setHeader base kv.1 kv.2) k
      (fun x hx => hk x (List.mem_cons_of_mem _ hx))]
    exact getHeader_setHeader_ne base kv.1 kv.2 k
      (Ne.symm (hk kv (List.mem_cons_self kv rest)))

/-! #### Occurrence lemmas for the alternation replacement -/

theorem findRepl_singleton (pr : Alt) (s : List Char) :
    findRepl [pr] s =
      (if pr.1.isPrefixOf s then some (pr.2, pr.1.length) else none) := by
  simp only [findRepl, List.findSome?_cons, List.findSome?_nil]
  cases h : pr.1.isPrefixOf s <;> simp [h]

theorem jsReplace_clean (alts : List Alt) :
    ∀ u rest : List Char,
      (∀ i, i < u.length → findRepl alts ((u ++ rest).drop i) = none) →
      jsReplace alts (u ++ rest) = u ++ jsReplace alts rest := by
  intro u
  induction u with
  | nil => intro rest _; simp
  | cons a u ih =>
    intro rest h
    have h0 : findRepl alts (a :: (u ++ rest)) = none := by
      simpa using h 0 (by simp)
    rw [List.cons_append, jsReplace_cons, h0]
    have := ih rest (fun i hi => by simpa using h (i + 1) (by simpa using hi))
    rw [this]
    rfl

theorem jsReplace_matchHead (alts : List Alt) (p r v : List Char)
    (hp : p ≠ []) (hm : findRepl alts (p ++ v) = some (r, p.length)) :
    jsReplace alts (p ++ v) = r ++ jsReplace alts v := by
  cases p with
  | nil => exact absurd rfl hp
  | cons a p' =>
    rw [List.cons_append, jsReplace_cons]
    have hm' : findRepl alts (a :: (p' ++ v)) = some (r, p'.length + 1) := by
      simpa [List.length_cons] using hm
    rw [hm']
    simp [List.drop_append_eq_append_drop, Nat.sub_self]

/-! #### Round-trip of the forward and reverse substitution -/

theorem jsReplace_nil_of_ne (pr : Alt) (hne : pr.1 ≠ []) :
    jsReplace [pr] [] = [] := by
  rw [jsReplace_nil, findRepl_singleton]
  cases hpr : pr.1 with
  | nil => exact absurd hpr hne
  | cons a as => simp [hpr, List.isPrefixOf]

theorem rtSafe_suffix (h p t s : List Char) (hst : s <:+ t)
    (ht : rtSafe h p t = true) : rtSafe h p s = true := by
  simp only [rtSafe, List.all_eq_true] at ht ⊢
  intro x hx
  exact ht x ((List.mem_tails _ _).mpr
    (List.IsSuffix.trans ((List.mem_tails _ _).mp hx) hst))

theorem roundTrip_aux (h p : List Char) (hh : h ≠ []) (hp : p ≠ []) :
    ∀ n t, t.length ≤ n → rtSafe h p t = true →
      jsReplace [(p, h)] (jsReplace [(h, p)] t) = t := by
  intro n
  induction n with
  | zero =>
    intro t hlen _
    have ht : t = [] := List.eq_nil_of_length_eq_zero (Nat.le_zero.mp hlen)
    subst ht
    rw [jsReplace_nil_of_ne (h, p) hh, jsReplace_nil_of_ne (p, h) hp]
  | succ n ih =>
    intro t hlen hsafe
    cases t with
    | nil => rw [jsReplace_nil_of_ne (h, p) hh, jsReplace_nil_of_ne (p, h) hp]
    | cons c cs =>
      by_cases hpre : h.isPrefixOf (c :: cs) = true
      · obtain ⟨w, hw⟩ := List.isPrefixOf_iff_prefix.mp hpre
        rw [← hw]
        have hm1 : findRepl [(h, p)] (h ++ w) = some (p, h.length) := by
          rw [findRepl_singleton]
          simp [ List.isPrefixOf_iff_prefix.mpr ⟨w, rfl⟩]
        rw [jsReplace_matchHead [(h, p)] h p w hh hm1]
        have hm2 : findRepl [(p, h)] (p ++ jsReplace [(h, p)] w) = some (h, p.length) := by
          rw [findRepl_singleton]
          simp [ List.isPrefixOf_iff_prefix.mpr ⟨jsReplace [(h, p)] w, rfl⟩]
        rw [jsReplace_matchHead [(p, h)] p h (jsReplace [(h, p)] w) hp hm2]
        congr 1
        have hwlen : w.length ≤ n := by
          have h1 : 0 < h.length := List.length_pos.mpr hh
          have h2 : h.length + w.length = cs.length + 1 := by
            rw [← List.length_append, hw, List.length_cons]
          have h3 : cs.length + 1 ≤ n + 1 := by simpa using hlen
          omega
        refine ih w hwlen (rtSafe_suffix h p (c :: cs) w ?_ hsafe)
        rw [← hw]
        exact List.suffix_append h w
      · have hpre' : h.isPrefixOf (c :: cs) = false := by
          cases hb : h.isPrefixOf (c :: cs)
          · rfl
          · exact absurd hb hpre
        have hfr : findRepl [(h, p)] (c :: cs) = none := by
          rw [findRepl_singleton, hpre']
          rfl
        have e1 : jsReplace [(h, p)] (c :: cs) = c :: jsReplace [(h, p)] cs := by
          rw [jsReplace_cons, hfr]
        rw [e1]
        have hsafe_head : p.isPrefixOf (c :: jsReplace [(h, p)] cs) = false := by
          have hsafe' := hsafe
          simp only [rtSafe] at hsafe'
          have hmem := List.all_eq_true.mp hsafe' (c :: cs)
            ((List.mem_tails _ _).mpr (List.suffix_refl _))
          have hor : (h.isPrefixOf (c :: cs)
              || ! p.isPrefixOf (c :: jsReplace [(h, p)] cs)) = true := hmem
          rw [hpre'] at hor
          simpa using hor
        have hfr2 : findRepl [(p, h)] (c :: jsReplace [(h, p)] cs) = none := by
          rw [findRepl_singleton, hsafe_head]
          rfl
        have e2 : jsReplace [(p, h)] (c :: jsReplace [(h, p)] cs)
            = c :: jsReplace [(p, h)] (jsReplace [(h, p)] cs) := by
          rw [jsReplace_cons, hfr2]
        rw [e2]
        congr 1
        have hcslen : cs.length ≤ n := by
          have := hlen
          simp [List.length_cons] at this
          omega
        exact ih cs hcslen (rtSafe_suffix h p (c :: cs) cs (List.suffix_cons c cs) hsafe)

/-! #### Run invariants of the wrapped response -/

theorem foldWrapped_body (t : DomainTable) :
    ∀ (evs : List ResEvent) (st : ResState), ∃ ex : List String,
      (List.foldl (stepWrapped t) st evs).body = st.body ++ ex ∧
      ex.length = (writesOf evs).length ∧
      (∀ i c, (writesOf evs).get? i = some c →
        ex.get? i = some c ∨ ex.get? i = some (forwardReplace t c)) := by
  intro evs
  induction evs with
  | nil =>
    intro st
    refine ⟨[], by simp, by simp [writesOf], ?_⟩
    intro i c hc
    simp [writesOf] at hc
  | cons ev evs ih =>
    intro st
    obtain ⟨ex, h1, h2, h3⟩ := ih (stepWrapped t st ev)
    cases ev with
    | write c =>
      refine ⟨(if st.shouldRewrite then forwardReplace t c else c) :: ex, ?_, ?_, ?_⟩
      · rw [List.foldl_cons, h1]
        simp [stepWrapped]
      · simp [writesOf, List.filterMap_cons] at h2 ⊢
        exact h2
      · intro i c' hc'
        cases i with
        | zero =>
          simp [writesOf, List.filterMap_cons] at hc'
          subst hc'
          cases hsw : st.shouldRewrite <;> simp
        | succ j =>
          simp only [writesOf, List.filterMap_cons] at hc'
          rw [List.get?_cons_succ] at hc' ⊢
          exact h3 j c' hc'
    | setHdr k v =>
      refine ⟨ex, ?_, ?_, ?_⟩
      · rw [List.foldl_cons]
        simpa [stepWrapped] using h1
      · simpa [writesOf, List.filterMap_cons] using h2
      · intro i c hc
        exact h3 i c (by simpa [writesOf, List.filterMap_cons] using hc)
    | writeHead status harg =>
      refine ⟨ex, ?_, ?_, ?_⟩
      · rw [List.foldl_cons]
        simpa [stepWrapped] using h1
      · simpa [writesOf, List.filterMap_cons] using h2
      · intro i c hc
        exact h3 i c (by simpa [writesOf, List.filterMap_cons] using hc)
    | endEv oc =>
      refine ⟨ex, ?_, ?_, ?_⟩
      · rw [List.foldl_cons]
        simpa [stepWrapped] using h1
      · simpa [writesOf, List.filterMap_cons] using h2
      · intro i c hc
        exact h3 i c (by simpa [writesOf, List.filterMap_cons] using hc)

theorem foldWrapped_no_writeHead (t : DomainTable) :
    ∀ (evs : List ResEvent) (st : ResState),
      (∀ status harg, ResEvent.writeHead status harg ∉ evs) →
      st.shouldRewrite = false →
      (List.foldl (stepWrapped t) st evs).shouldRewrite = false ∧
      (List.foldl (stepWrapped t) st evs).body = st.body ++ writesOf evs ∧
      (List.foldl (stepWrapped t) st evs).resHeaders = setsFold st.resHeaders evs ∧
      (List.foldl (stepWrapped t) st evs).sentHeaders = st.sentHeaders := by
  intro evs
  induction evs with
  | nil =>
    intro st _ hsw
    exact ⟨hsw, by simp [writesOf], rfl, rfl⟩
  | cons ev evs ih =>
    intro st hnw hsw
    have hnw' : ∀ status harg, ResEvent.writeHead status harg ∉ evs :=
      fun s h hm => hnw s h (List.mem_cons_of_mem _ hm)
    cases ev with
    | writeHead status harg =>
      exact absurd (List.mem_cons_self _ _) (hnw status harg)
    | setHdr k v =>
      obtain ⟨ha, hb, hc, hd⟩ :=
        ih (stepWrapped t st (.setHdr k v)) hnw' (by simpa [stepWrapped] using hsw)
      rw [List.foldl_cons]
      refine ⟨ha, ?_, ?_, ?_⟩
      · rw [hb]; simp [stepWrapped, writesOf, List.filterMap_cons]
      · rw [hc]; rfl
      · rw [hd]; rfl
    | write c =>
      obtain ⟨ha, hb, hc, hd⟩ :=
        ih (stepWrapped t st (.write c)) hnw' (by simpa [stepWrapped] using hsw)
      rw [List.foldl_cons]
      refine ⟨ha, ?_, ?_, ?_⟩
      · rw [hb]
        simp [stepWrapped, hsw, writesOf, List.filterMap_cons, List.append_assoc]
      · rw [hc]; rfl
      · rw [hd]; rfl
    | endEv oc =>
      obtain ⟨ha, hb, hc, hd⟩ :=
        ih (stepWrapped t st (.endEv oc)) hnw' (by simpa [stepWrapped] using hsw)
      rw [List.foldl_cons]
      refine ⟨ha, ?_, ?_, ?_⟩
      · rw [hb]; simp [stepWrapped, writesOf, List.filterMap_cons]
      · rw [hc]; rfl
      · rw [hd]; rfl

/-! ### Claim theorems -/

/-- Claim C1: per the spec, when no domain configuration defines a public
host, the built table has empty mappings and patterns and the rewrite gate
is fully bypassed so every chunk passes unchanged.  The code only bypasses
the gate when the domains list is absent altogether; with a domains list
present but defining no public host the mappings are indeed empty, yet the
compiled pattern is the empty-group regex, the gate still engages, and a
rewritable chunk is corrupted by inserting the text undefined at every
position.  This theorem evaluates the model at that failing input. -/
theorem c1_no_public_host_not_bypassed :
    gateEngaged none = false ∧
    gateEngaged (some c1Domains) = true ∧
    (buildDomainTable c1Domains).replaceMap = [] ∧
    (buildDomainTable c1Domains).reverseReplaceMap = [] ∧
    (buildDomainTable c1Domains).escapedUrls = [] ∧
    (runWrapped (buildDomainTable c1Domains)
        [.writeHead 200 (some [("content-type", "text/html")]), .write "ab"]).body
      = ["undefinedaundefinedbundefined"] ∧
    ¬ ((["undefinedaundefinedbundefined"] : List String) = ["ab"]) := by
  decide

/-- Claim C2: with a key identifier configured, any request whose path
starts with the ACME well-known challenge prefix is answered immediately
with implicit status 200 and body exactly the token followed by a dot and
the key identifier (token = the path suffix past the prefix), and the
request is never handed to the proxy; with no key identifier configured
the interception never fires. -/
theorem c2_acme_challenge (kid u : String) (g : Bool)
    (hu : jsStartsWith u acmeChallengePath = true) :
    handleRequest (some kid) g (some u)
      = .challenge 200 ((strDrop u acmeChallengePath.length) ++ "." ++ kid) ∧
    (∀ g' url, handleRequest none g' url = .proxied g') := by
  constructor
  · simp [handleRequest, hu]
  · intro g' url
    cases url <;> rfl

theorem c2_acme_challenge_witness :
    handleRequest (some "kid42") true (some "/.well-known/acme-challenge/abc123")
      = .challenge 200 "abc123.kid42" := by
  have h := c2_acme_challenge "kid42" "/.well-known/acme-challenge/abc123" true (by decide)
  rw [h.1]
  decide

/-- Claim C3: at header-send time the body-rewrite decision is enabled iff
the consulted content type exists and includes one of text/html, text/css
or application/javascript; the spec examples evaluate as stated and a
missing content type disables rewriting (fail closed). -/
theorem c3_content_type_gating (t : DomainTable) (st : ResState)
    (status : Nat) (harg : Option HeaderMap) :
    ((stepWrapped t st (.writeHead status harg)).shouldRewrite = true ↔
      ∃ c, ctOf st harg = some c ∧
        (strIncludes c "text/html" = true ∨ strIncludes c "text/css" = true ∨
          strIncludes c "application/javascript" = true)) ∧
    computeShouldRewrite (some "text/html; charset=utf-8") = true ∧
    computeShouldRewrite (some "application/octet-stream") = false ∧
    computeShouldRewrite (some "application/javascript") = true ∧
    computeShouldRewrite none = false := by
  refine ⟨?_, by decide, by decide, by decide, rfl⟩
  show swOf st harg = true ↔ _
  rw [swOf]
  cases hct : ctOf st harg with
  | none => simp [computeShouldRewrite]
  | some c => simp [computeShouldRewrite, rewriteTypes]

/-- CORS rewriting leaves other response headers untouched. -/
theorem getHeader_applyCorsRes_ne (t : DomainTable) (m : HeaderMap) (k : String)
    (hk : k ≠ corsKey) : getHeader (applyCorsRes t m) k = getHeader m k := by
  cases hc : getHeader m corsKey with
  | none => simp [applyCorsRes, hc]
  | some v =>
    by_cases hv : v.isEmpty
    · simp [applyCorsRes, hc, hv]
    · simp [applyCorsRes, hc, hv, getHeader_setHeader_ne m corsKey (forwardReplace t v) k hk]

/-- CORS rewriting of the response headers substitutes the stored value. -/
theorem getHeader_applyCorsRes_some (t : DomainTable) (m : HeaderMap) (v : String)
    (hv : getHeader m corsKey = some v) (hne : v.isEmpty = false) :
    getHeader (applyCorsRes t m) corsKey = some (forwardReplace t v) := by
  simp [applyCorsRes, hv, hne, getHeader_setHeader_same]

theorem applyCorsArg_of_none (t : DomainTable) (h : HeaderMap)
    (hc : getHeader h corsKey = none) : applyCorsArg t h = h := by
  simp [applyCorsArg, hc]

theorem mem_applyCorsArg (t : DomainTable) (h : HeaderMap) :
    ∀ kv ∈ applyCorsArg t h, kv ∈ h ∨ kv.1 = corsKey := by
  intro kv hkv
  cases hc : getHeader h corsKey with
  | none =>
    rw [applyCorsArg_of_none t h hc] at hkv
    exact Or.inl hkv
  | some v =>
    by_cases hv : v.isEmpty
    · simp only [applyCorsArg, hc, if_pos hv] at hkv
      exact Or.inl hkv
    · simp only [applyCorsArg, hc, if_neg hv] at hkv
      rcases mem_setHeader h corsKey (forwardReplace t v) kv hkv with h1 | h1
      · exact Or.inl h1
      · exact Or.inr (by rw [h1])

/-- Claim C4: whenever the rewrite decision is enabled at writeHead time,
the content-length field is removed both from the response headers and
from the writeHead headers argument before flushing, so the flushed header
set never contains content-length. -/
theorem c4_content_length_removed (t : DomainTable) (st : ResState)
    (status : Nat) (harg : Option HeaderMap)
    (hsw : (stepWrapped t st (.writeHead status harg)).shouldRewrite = true) :
    (stepWrapped t st (.writeHead status harg)).sentHeaders
      = some (status, mergeHeaders (rhAfter t st harg) (haAfter t st harg)) ∧
    getHeader (mergeHeaders (rhAfter t st harg) (haAfter t st harg)) "content-length"
      = none ∧
    getHeader (stepWrapped t st (.writeHead status harg)).resHeaders "content-length"
      = none := by
  have hsw' : swOf st harg = true := hsw
  have hrh : getHeader (rhAfter t st harg) "content-length" = none := by
    rw [rhAfter, hsw']
    simp only [if_true]
    rw [getHeader_applyCorsRes_ne t _ _ (by decide)]
    exact getHeader_removeHeader_same _ _
  refine ⟨rfl, ?_, hrh⟩
  cases harg with
  | none =>
    have hha : haAfter t st none = none := by
      rw [haAfter, hsw']
      simp
    rw [hha]
    exact hrh
  | some hm =>
    have hha : haAfter t st (some hm)
        = some (applyCorsArg t (removeHeader hm "content-length")) := by
      rw [haAfter, hsw']
      simp [Option.map]
    have hkeys : ∀ kv ∈ applyCorsArg t (removeHeader hm "content-length"),
        kv.1 ≠ "content-length" := by
      intro kv hkv
      rcases mem_applyCorsArg t _ kv hkv with h1 | h1
      · exact (mem_removeHeader hm "content-length" kv h1).2
      · rw [h1]; decide
    rw [hha, getHeader_mergeHeaders_keyFree _ _ _ hkeys]
    exact hrh

theorem c4_content_length_removed_witness :
    getHeader
      (mergeHeaders
        (rhAfter exTable
          ⟨[("content-type", "text/html"), ("content-length", "123")], false, none, [], false⟩
          (some [("content-length", "7")]))
        (haAfter exTable
          ⟨[("content-type", "text/html"), ("content-length", "123")], false, none, [], false⟩
          (some [("content-length", "7")])))
      "content-length" = none :=
  (c4_content_length_removed exTable
    ⟨[("content-type", "text/html"), ("content-length", "123")], false, none, [], false⟩
    200 (some [("content-length", "7")]) (by decide)).2.1

/-- Claim C5: at header-send time, a non-empty CORS allow-origin header on
the response is flushed with the forward substitution applied to its value
whatever the body-rewrite decision is (the decision is not hypothesised),
and on a value decomposing as prefix, matched target hostname and tail the
substitution replaces that occurrence by the mapped public hostname. -/
theorem c5_cors_always_rewritten (t : DomainTable) (st : ResState)
    (status : Nat) (harg : Option HeaderMap) (v : String)
    (u td pd w : List Char)
    (hv : getHeader st.resHeaders corsKey = some v)
    (hne : v.isEmpty = false)
    (hargfree : ∀ hm, harg = some hm → ∀ kv ∈ hm, kv.1 ≠ corsKey)
    (hdec : v.data = u ++ td ++ w)
    (htd : td ≠ [])
    (hclean : ∀ i, i < u.length → findRepl (forwardAlts t) (v.data.drop i) = none)
    (hmatch : findRepl (forwardAlts t) (td ++ w) = some (pd, td.length)) :
    (stepWrapped t st (.writeHead status harg)).sentHeaders
      = some (status, mergeHeaders (rhAfter t st harg) (haAfter t st harg)) ∧
    getHeader (mergeHeaders (rhAfter t st harg) (haAfter t st harg)) corsKey
      = some (forwardReplace t v) ∧
    (forwardReplace t v).data = u ++ pd ++ jsReplace (forwardAlts t) w := by
  have hrh : getHeader (rhAfter t st harg) corsKey = some (forwardReplace t v) := by
    rw [rhAfter]
    cases hswv : swOf st harg with
    | false =>
      rw [if_neg (by simp)]
      exact getHeader_applyCorsRes_some t _ v hv hne
    | true =>
      rw [if_pos rfl]
      refine getHeader_applyCorsRes_some t _ v ?_ hne
      rw [getHeader_removeHeader_ne _ _ _ (by decide)]
      exact hv
  refine ⟨rfl, ?_, ?_⟩
  · cases harg with
    | none =>
      have hha : haAfter t st none = none := by
        rw [haAfter]
        cases swOf st none <;> simp
      rw [hha]
      exact hrh
    | some hm =>
      have hfree : ∀ kv ∈ hm, kv.1 ≠ corsKey := hargfree hm rfl
      cases hswv : swOf st (some hm) with
      | false =>
        have hha : haAfter t st (some hm) = some (applyCorsArg t hm) := by
          rw [haAfter, hswv]
          simp [Option.map]
        have hid : applyCorsArg t hm = hm :=
          applyCorsArg_of_none t hm (getHeader_none_of_keys_ne hm corsKey hfree)
        rw [hha, hid, getHeader_mergeHeaders_keyFree hm _ _ hfree]
        exact hrh
      | true =>
        have hfree' : ∀ kv ∈ removeHeader hm "content-length", kv.1 ≠ corsKey :=
          fun kv hkv => hfree kv (mem_removeHeader hm _ kv hkv).1
        have hha : haAfter t st (some hm)
            = some (applyCorsArg t (removeHeader hm "content-length")) := by
          rw [haAfter, hswv]
          simp [Option.map]
        have hid : applyCorsArg t (removeHeader hm "content-length")
            = removeHeader hm "content-length" :=
          applyCorsArg_of_none t _ (getHeader_none_of_keys_ne _ corsKey hfree')
        rw [hha, hid, getHeader_mergeHeaders_keyFree _ _ _ hfree']
        exact hrh
  · have hclean' : ∀ i, i < u.length →
        findRepl (forwardAlts t) ((u ++ (td ++ w)).drop i) = none := by
      intro i hi
      have h0 := hclean i hi
      rw [hdec, List.append_assoc] at h0
      exact h0
    show jsReplace (forwardAlts t) v.data = u ++ pd ++ jsReplace (forwardAlts t) w
    rw [hdec, List.append_assoc, jsReplace_clean (forwardAlts t) u (td ++ w) hclean',
      jsReplace_matchHead (forwardAlts t) td pd w htd hmatch, List.append_assoc]

theorem c5_cors_always_rewritten_witness :
    getHeader (mergeHeaders (rhAfter corsTable c5St none) (haAfter corsTable c5St none))
      corsKey = some (forwardReplace corsTable "http://target.local") ∧
    forwardReplace corsTable "http://target.local" = "http://public.example" ∧
    swOf c5St none = false := by
  refine ⟨?_, by decide, by decide⟩
  exact (c5_cors_always_rewritten corsTable c5St 200 none "http://target.local"
    "http://".data "target.local".data "public.example".data []
    (by decide) (by decide) (fun hm h => nomatch h)
    (by decide) (by decide) (by decide) (by decide)).2.1

/-- Claim C6 (amended): for a configuration with a single domain mapping
target hostname h to public hostname p (both non-empty after extraction),
forward-then-reverse substitution returns the original on every literal
text that is straddle-free for the pair — at no position outside a target
match does the public hostname begin in the rewritten remainder; in
particular the public hostname must not already occur in the text.
Unrestricted over all texts the claim is false: see the counterexample. -/
theorem c6_round_trip (tUrl pUrl text : String)
    (hh : (getDomain tUrl).data ≠ [])
    (hp : (getDomain pUrl).data ≠ [])
    (hsafe : rtSafe (getDomain tUrl).data (getDomain pUrl).data text.data = true) :
    reverseReplace (buildDomainTable [⟨tUrl, some pUrl⟩])
      (forwardReplace (buildDomainTable [⟨tUrl, some pUrl⟩]) text) = text := by
  have hfa : forwardAlts (buildDomainTable [⟨tUrl, some pUrl⟩])
      = [((getDomain tUrl).data, (getDomain pUrl).data)] := by
    simp [buildDomainTable, addDomain, emptyTable, forwardAlts, altsOf, setHeader,
      removeHeader, getHeader]
  have hra : reverseAlts (buildDomainTable [⟨tUrl, some pUrl⟩])
      = [((getDomain pUrl).data, (getDomain tUrl).data)] := by
    simp [buildDomainTable, addDomain, emptyTable, reverseAlts, altsOf, setHeader,
      removeHeader, getHeader]
  have key := roundTrip_aux (getDomain tUrl).data (getDomain pUrl).data hh hp
    text.data.length text.data (Nat.le_refl _) hsafe
  show (⟨jsReplace (reverseAlts (buildDomainTable [⟨tUrl, some pUrl⟩]))
      (jsReplace (forwardAlts (buildDomainTable [⟨tUrl, some pUrl⟩])) text.data)⟩ : String)
    = text
  rw [hfa, hra, key]

theorem c6_round_trip_witness :
    reverseReplace (buildDomainTable [⟨"http://localhost:3000", some "https://app.example"⟩])
      (forwardReplace
        (buildDomainTable [⟨"http://localhost:3000", some "https://app.example"⟩])
        "href=http://localhost:3000/x") = "href=http://localhost:3000/x" :=
  c6_round_trip "http://localhost:3000" "https://app.example" "href=http://localhost:3000/x"
    (by decide) (by decide) (by decide)

/-- Claim C6 counterexample: with the spec scenario configuration mapping
localhost:3000 to app.example, the literal text app.example contains no
target hostname, so the forward substitution leaves it unchanged, and the
reverse substitution then turns it into localhost:3000: forward followed
by reverse is not the identity on every literal text. -/
theorem c6_round_trip_counterexample :
    reverseReplace exTable (forwardReplace exTable "app.example") = "localhost:3000" ∧
    ¬ (("localhost:3000" : String) = "app.example") := by
  decide

/-- Claim C7: before a WebSocket upgrade is forwarded, the Host header and
the Origin header — whether a scalar value or a list of values — have the
reverse substitution applied, replacing known public hostnames by their
target counterparts; on an origin value decomposing as prefix, matched
public hostname and tail, that occurrence becomes the target hostname. -/
theorem c7_upgrade_rewrite (t : DomainTable) (host : Option String)
    (v : String) (u pd td w : List Char)
    (hne : v.isEmpty = false)
    (hdec : v.data = u ++ pd ++ w)
    (hpd : pd ≠ [])
    (hclean : ∀ i, i < u.length → findRepl (reverseAlts t) (v.data.drop i) = none)
    (hmatch : findRepl (reverseAlts t) (pd ++ w) = some (td, pd.length)) :
    (rewriteUpgrade t ⟨host, .scalar v⟩).origin = .scalar (reverseReplace t v) ∧
    (reverseReplace t v).data = u ++ td ++ jsReplace (reverseAlts t) w ∧
    (∀ vs hst, (rewriteUpgrade t ⟨hst, .listVals vs⟩).origin
        = .listVals (vs.map (reverseReplace t))) ∧
    (∀ hs og, hs.isEmpty = false →
      (rewriteUpgrade t ⟨some hs, og⟩).host = some (reverseReplace t hs)) := by
  refine ⟨?_, ?_, ?_, ?_⟩
  · show (if v.isEmpty then OriginHeader.scalar v
        else OriginHeader.scalar (reverseReplace t v)) = _
    rw [hne]
    simp
  · have hclean' : ∀ i, i < u.length →
        findRepl (reverseAlts t) ((u ++ (pd ++ w)).drop i) = none := by
      intro i hi
      have h0 := hclean i hi
      rw [hdec, List.append_assoc] at h0
      exact h0
    show jsReplace (reverseAlts t) v.data = u ++ td ++ jsReplace (reverseAlts t) w
    rw [hdec, List.append_assoc, jsReplace_clean (reverseAlts t) u (pd ++ w) hclean',
      jsReplace_matchHead (reverseAlts t) pd td w hpd hmatch, List.append_assoc]
  · intro vs hst
    rfl
  · intro hs og h
    show (if hs.isEmpty then some hs else some (reverseReplace t hs)) = _
    rw [h]
    simp

theorem c7_upgrade_rewrite_witness :
    (rewriteUpgrade exTable ⟨some "app.example", .scalar "http://app.example"⟩).origin
      = .scalar (reverseReplace exTable "http://app.example") ∧
    reverseReplace exTable "http://app.example" = "http://localhost:3000" ∧
    (rewriteUpgrade exTable ⟨some "app.example", .scalar "http://app.example"⟩).host
      = some "localhost:3000" := by
  refine ⟨?_, by decide, by decide⟩
  exact (c7_upgrade_rewrite exTable (some "app.example") "http://app.example"
    "http://".data "app.example".data "localhost:3000".data []
    (by decide) (by decide) (by decide) (by decide) (by decide)).1

/-- Claim C8 (amended): the body sent to the client is exactly one chunk
per upstream write, in order — finalization inserts and duplicates
nothing — and each sent chunk is the written chunk either unchanged or
with the forward substitution applied; a write contributes exactly its
(possibly substituted) chunk, and any chunk handed to the patched end call
is discarded rather than sent. -/
theorem c8_body_exact (t : DomainTable) (evs : List ResEvent) :
    (runWrapped t evs).body.length = (writesOf evs).length ∧
    (∀ i c, (writesOf evs).get? i = some c →
      (runWrapped t evs).body.get? i = some c ∨
      (runWrapped t evs).body.get? i = some (forwardReplace t c)) ∧
    (∀ st c, (stepWrapped t st (.write c)).body
        = st.body ++ [if st.shouldRewrite then forwardReplace t c else c]) ∧
    (∀ oc, (runWrapped t (evs ++ [.endEv oc])).body = (runWrapped t evs).body) := by
  obtain ⟨ex, h1, h2, h3⟩ := foldWrapped_body t evs initRes
  have hbody : (runWrapped t evs).body = ex := by
    simpa [runWrapped, initRes] using h1
  refine ⟨?_, ?_, ?_, ?_⟩
  · rw [hbody, h2]
  · intro i c hc
    rw [hbody]
    exact h3 i c hc
  · intro st c
    rfl
  · intro oc
    rw [runWrapped, runWrapped, List.foldl_append]
    rfl

theorem c8_body_exact_witness :
    (runWrapped exTable
        [.setHdr "content-type" "text/html", .writeHead 200 none,
         .write "see http://localhost:3000/a", .endEv (some "tail")]).body.get? 0
      = some "see http://localhost:3000/a" ∨
    (runWrapped exTable
        [.setHdr "content-type" "text/html", .writeHead 200 none,
         .write "see http://localhost:3000/a", .endEv (some "tail")]).body.get? 0
      = some (forwardReplace exTable "see http://localhost:3000/a") :=
  (c8_body_exact exTable
    [.setHdr "content-type" "text/html", .writeHead 200 none,
     .write "see http://localhost:3000/a", .endEv (some "tail")]).2.1
    0 "see http://localhost:3000/a" (by decide)

/-- Claim C8 counterexample: the patched end takes no argument, so a final
chunk handed to res.end is dropped: with rewriting disabled, after write a
then end b the body sent is a alone, not a followed by b as pass-through
of every chunk including the final one would require. -/
theorem c8_body_exact_counterexample :
    (runWrapped exTable
        [.writeHead 200 none, .write "a", .endEv (some "b")]).body = ["a"] ∧
    ¬ ((["a"] : List String) = ["a", "b"]) := by
  decide

/-- Claim C9: per the spec, a transport connection error is answered with
status 500 and the rendered diagnostic page carrying the error message and
the raw stack, a getaddrinfo ENOTFOUND message being reworded to name the
missing host, per request.  The handler does flush status 500 and does
compute that page — and with no domains list configured the native end
delivers it — but whenever a domains list is present the request callback
has already replaced res.end by the zero-argument wrapper, so
res.end(page) discards the page and the client receives the 500 with an
empty body.  This theorem evaluates the handler events at the failing
input, for a DNS-failure error and for a connection-refused error, against
both the wrapped and the native response. -/
theorem c9_error_page_dropped :
    (runWrapped exTable
        (errorEvents "getaddrinfo ENOTFOUND myapp.test"
          "Error: getaddrinfo ENOTFOUND myapp.test")).sentHeaders.map Prod.fst
      = some 500 ∧
    (runWrapped exTable
        (errorEvents "getaddrinfo ENOTFOUND myapp.test"
          "Error: getaddrinfo ENOTFOUND myapp.test")).body = [] ∧
    (runWrapped exTable
        (errorEvents "getaddrinfo ENOTFOUND myapp.test"
          "Error: getaddrinfo ENOTFOUND myapp.test")).ended = true ∧
    ¬ ((runWrapped exTable
        (errorEvents "getaddrinfo ENOTFOUND myapp.test"
          "Error: getaddrinfo ENOTFOUND myapp.test")).body
      = [renderTemplate (rewordError "getaddrinfo ENOTFOUND myapp.test")
          "Error: getaddrinfo ENOTFOUND myapp.test"]) ∧
    (runPlain
        (errorEvents "getaddrinfo ENOTFOUND myapp.test"
          "Error: getaddrinfo ENOTFOUND myapp.test")).sentHeaders.map Prod.fst
      = some 500 ∧
    (runPlain
        (errorEvents "getaddrinfo ENOTFOUND myapp.test"
          "Error: getaddrinfo ENOTFOUND myapp.test")).body
      = [renderTemplate (rewordError "getaddrinfo ENOTFOUND myapp.test")
          "Error: getaddrinfo ENOTFOUND myapp.test"] ∧
    strIncludes
      (renderTemplate (rewordError "getaddrinfo ENOTFOUND myapp.test")
        "Error: getaddrinfo ENOTFOUND myapp.test")
      (rewordError "getaddrinfo ENOTFOUND myapp.test") = true ∧
    strIncludes
      (renderTemplate (rewordError "getaddrinfo ENOTFOUND myapp.test")
        "Error: getaddrinfo ENOTFOUND myapp.test")
      "Error: getaddrinfo ENOTFOUND myapp.test" = true ∧
    strIncludes (rewordError "getaddrinfo ENOTFOUND myapp.test") "myapp.test" = true ∧
    (runWrapped exTable
        (errorEvents "connect ECONNREFUSED 127.0.0.1:3000"
          "Error: connect ECONNREFUSED 127.0.0.1:3000")).body = [] ∧
    (runPlain
        (errorEvents "connect ECONNREFUSED 127.0.0.1:3000"
          "Error: connect ECONNREFUSED 127.0.0.1:3000")).body
      = [renderTemplate (rewordError "connect ECONNREFUSED 127.0.0.1:3000")
          "Error: connect ECONNREFUSED 127.0.0.1:3000"] ∧
    rewordError "connect ECONNREFUSED 127.0.0.1:3000"
      = "connect ECONNREFUSED 127.0.0.1:3000" := by
  decide

/-- Claim C10: while the wrappers are installed, if writeHead is never
invoked, the rewrite decision keeps its initial disabled value, every body
chunk passes through unmodified, no header flush happens through the
wrapper, and the response headers are exactly those produced by setHeader
calls — in particular neither content-length nor the allow-origin header
is touched, since all header mutation and the gating decision happen only
inside the writeHead wrapper. -/
theorem c10_implicit_flush_no_rewrite (t : DomainTable) (evs : List ResEvent)
    (hnw : ∀ status harg, ResEvent.writeHead status harg ∉ evs) :
    (runWrapped t evs).shouldRewrite = false ∧
    (runWrapped t evs).body = writesOf evs ∧
    (runWrapped t evs).resHeaders = setsOnly evs ∧
    (runWrapped t evs).sentHeaders = none := by
  obtain ⟨h1, h2, h3, h4⟩ := foldWrapped_no_writeHead t evs initRes hnw rfl
  exact ⟨h1, by simpa [runWrapped, initRes] using h2, h3, h4⟩

theorem c10_implicit_flush_no_rewrite_witness :
    (runWrapped exTable
        [.setHdr "content-type" "text/html", .write "http://localhost:3000",
         .endEv none]).body = ["http://localhost:3000"] ∧
    (runWrapped exTable
        [.setHdr "content-type" "text/html", .write "http://localhost:3000",
         .endEv none]).shouldRewrite = false := by
  have h := c10_implicit_flush_no_rewrite exTable
    [.setHdr "content-type" "text/html", .write "http://localhost:3000", .endEv none]
    (by intro status harg hm; simp at hm)
  refine ⟨?_, h.1⟩
  rw [h.2.1]
  decide

end Portless
